import Mathlib

/-!
# cc-editor-system: the WebSocket relay of `main.go`

The server keeps a package-level map `clients` of open connections and a
package-level channel `broadcast`.  One goroutine per connection runs
`handleConnections` (the Reader); a single goroutine runs `handleMessages`
(the Broadcast Loop).

The embedding is an interleaving semantics: a `State` holds the two package-level
variables, the control point of every goroutine and the observable effects
(frames written, connections closed, error lines logged, process exit).  An
`Action` is one atomic statement group of one goroutine together with the
outcome the library call in it reported; `step` executes it, and is `none` when
the goroutine is not at that statement.

The program takes no lock.  A map write of a Reader (the assignment of line 85, the
`delete` of line 93) is therefore not one step: the Reader enters the operation in
one step and leaves it in a later one, and other goroutines step in between.  While
a Reader is inside a map write and another goroutine is inside a registry operation
too, the Go runtime may find the map in use by two goroutines and end the process
with a fatal error (`concurrent map writes`, `concurrent map iteration and map
write`); the step `fatal` is that outcome.  The runtime's check is best effort, so
`fatal` is a possible step, not a forced one.
-/

namespace Relay

/-! ## Data model -/

/-- A `*websocket.Conn`: connections are compared by pointer identity. -/
abbrev Conn := Nat

/-- The message structure `File` (main.go, lines 52-55). -/
structure File where
  Content : String
  FileExtension : String
deriving DecidableEq, Repr

/-- The three ways `ws.ReadJSON` reports an error; line 91 tests only `err != nil`. -/
inductive ReadErr
  | malformed
  | disconnect
  | transport
deriving DecidableEq, Repr

/-- Control point of one `handleConnections` goroutine after a successful upgrade. -/
inductive ReaderPC
  /-- Inside the map assignment of line 85. -/
  | adding
  /-- Blocked in `ws.ReadJSON` (line 90). -/
  | read
  /-- At `broadcast <- file` (line 97). -/
  | send (file : File)
  /-- Inside the `delete` of line 93. -/
  | deleting
  /-- Returned; the deferred `ws.Close()` has run. -/
  | done
deriving DecidableEq, Repr

/-- Control point of the `handleMessages` goroutine: blocked at `msg := <-broadcast`
(line 104), or inside `for client := range clients` (line 106) with the keys the
iteration has still to produce. -/
inductive LoopPC
  | recv
  | range (msg : File) (todo : List Conn)
deriving DecidableEq, Repr

/-- Capacity of `broadcast`: `make(chan File)` (line 42) gives no capacity argument,
so the channel is unbuffered. -/
def broadcastCap : Nat := 0

/-- The state of the server process. `clients` holds the keys of the map of line 41
(the only value ever stored is `true`, and no value is ever read); `broadcast` holds
the elements buffered in the channel. -/
structure State where
  /-- Keys of the map `clients`. -/
  clients : List Conn
  /-- Elements buffered in the channel `broadcast`, oldest first. -/
  broadcast : List File
  /-- Control point of `handleMessages`. -/
  loop : LoopPC
  /-- Control point of the `handleConnections` goroutine of each connection; `none`
  for a connection that does not exist yet. -/
  readers : Conn → Option ReaderPC
  /-- The Readers that are inside a map write (line 85 or line 93), in the order in
  which they entered. -/
  inside : List Conn
  /-- Connections on which `Close` has been called, oldest first. -/
  closed : List Conn
  /-- Frames `WriteJSON` has written successfully, oldest first. -/
  wire : List (Conn × File)
  /-- Number of error lines logged. -/
  logged : Nat
  /-- Whether the process has exited. -/
  exited : Bool

/-- The map assignment `clients[ws] = true`. -/
def mapSet (m : List Conn) (ws : Conn) : List Conn :=
  if ws ∈ m then m else m ++ [ws]

/-- The builtin `delete(clients, ws)`. -/
def mapDelete (m : List Conn) (ws : Conn) : List Conn :=
  m.filter (fun c => decide (c ≠ ws))

/-- Move the goroutine of `ws` to control point `pc`. -/
def setPC (r : Conn → Option ReaderPC) (ws : Conn) (pc : ReaderPC) : Conn → Option ReaderPC :=
  fun c => if c = ws then some pc else r c

/-- The keys an iteration in progress has still to produce. -/
def LoopPC.todo : LoopPC → List Conn
  | .recv => []
  | .range _ t => t

/-- A key created while the map is being ranged over may be produced by the
iteration (at any later position) or skipped. -/
def noteCreated (l : LoopPC) (ws : Conn) : Option Nat → LoopPC
  | none => l
  | some i =>
    match l with
    | .recv => .recv
    | .range msg t => .range msg (t.take i ++ ws :: t.drop i)

/-- The atomic steps of the goroutines, each with the outcome of its library call. -/
inductive Action
  /-- Lines 78-81: `upgrader.Upgrade` returns an error. -/
  | upgradeErr
  /-- Lines 78-85: the upgrade succeeds with the new connection `ws` and the Reader
  enters the map assignment, which stores the key; `seen` says where a running
  iteration will produce the new key. -/
  | accept (ws : Conn) (seen : Option Nat)
  /-- Line 85: the Reader of `ws` leaves the map assignment and goes on to line 87. -/
  | added (ws : Conn)
  /-- Line 90: `ws.ReadJSON` returns `file` without error. -/
  | readOk (ws : Conn) (file : File)
  /-- Lines 90-93: `ws.ReadJSON` returns the error `e`, it is logged and the Reader
  enters the `delete`, which removes the key. -/
  | readErr (ws : Conn) (e : ReadErr)
  /-- Lines 93-95: the Reader of `ws` leaves the `delete`, breaks out of its loop and
  returns, which runs the deferred `ws.Close()` of line 82. -/
  | deleted (ws : Conn)
  /-- Line 97 meeting line 104 directly: the sender hands `file` to the waiting
  receiver, which starts the iteration of line 106 in the order `order`. -/
  | handoff (ws : Conn) (file : File) (order : List Conn)
  /-- Line 97 completing into free buffer space of the channel. -/
  | push (ws : Conn) (file : File)
  /-- Line 104 taking the oldest buffered element, then starting line 106. -/
  | pop (order : List Conn)
  /-- Lines 107-112 for the next key `client`; `ok` says whether `WriteJSON` succeeded. -/
  | write (client : Conn) (ok : Bool)
  /-- The next key of the iteration was deleted before it was reached: not produced. -/
  | skip (client : Conn)
  /-- The iteration of line 106 is exhausted; control returns to line 104. -/
  | endRange
  /-- The runtime finds `clients` in use by two goroutines at once and ends the
  process with a fatal error. -/
  | fatal
deriving DecidableEq, Repr

/-- The steps of a `handleConnections` goroutine (lines 76-99). No step waits for
another goroutine that is inside a registry operation: the function takes no lock. -/
def handleConnections (s : State) : Action → Option State
  | .upgradeErr =>
    -- log.Fatal(err): prints the error and calls os.Exit(1)
    some { s with logged := s.logged + 1, exited := true }
  | .accept ws seen =>
    if s.readers ws = none then
      some { s with clients := mapSet s.clients ws,
                    readers := setPC s.readers ws .adding,
                    inside := s.inside ++ [ws],
                    loop := noteCreated s.loop ws seen }
    else none
  | .added ws =>
    if s.readers ws = some .adding then
      some { s with readers := setPC s.readers ws .read,
                    inside := s.inside.erase ws }
    else none
  | .readOk ws file =>
    if s.readers ws = some .read then
      some { s with readers := setPC s.readers ws (.send file) }
    else none
  | .readErr ws _ =>
    if s.readers ws = some .read then
      some { s with logged := s.logged + 1,
                    clients := mapDelete s.clients ws,
                    readers := setPC s.readers ws .deleting,
                    inside := s.inside ++ [ws] }
    else none
  | .deleted ws =>
    if s.readers ws = some .deleting then
      some { s with readers := setPC s.readers ws .done,
                    inside := s.inside.erase ws,
                    closed := s.closed ++ [ws] }
    else none
  | .handoff ws file _ =>
    if s.readers ws = some (.send file) then
      some { s with readers := setPC s.readers ws .read }
    else none
  | .push ws file =>
    if s.readers ws = some (.send file) ∧ s.broadcast.length < broadcastCap then
      some { s with broadcast := s.broadcast ++ [file],
                    readers := setPC s.readers ws .read }
    else none
  | _ => none

/-- The steps of the `handleMessages` goroutine (lines 101-115). Each access of the
loop to the map (the `range` producing its next key, the `delete` of line 111) is a
step of its own, and Readers step in between; no step waits for a Reader that is
inside a map write. -/
def handleMessages (s : State) : Action → Option State
  | .handoff _ file order =>
    if s.loop = .recv ∧ s.broadcast = [] ∧ order.Perm s.clients then
      some { s with loop := .range file order }
    else none
  | .pop order =>
    match s.broadcast with
    | [] => none
    | msg :: rest =>
      if s.loop = .recv ∧ order.Perm s.clients then
        some { s with broadcast := rest, loop := .range msg order }
      else none
  | .write client ok =>
    match s.loop with
    | .range msg (c :: rest) =>
      if c = client ∧ client ∈ s.clients then
        if ok then
          some { s with wire := s.wire ++ [(client, msg)], loop := .range msg rest }
        else
          some { s with logged := s.logged + 1,
                        closed := s.closed ++ [client],
                        clients := mapDelete s.clients client,
                        loop := .range msg rest }
      else none
    | _ => none
  | .skip client =>
    match s.loop with
    | .range msg (c :: rest) =>
      if c = client ∧ client ∉ s.clients then some { s with loop := .range msg rest }
      else none
    | _ => none
  | .endRange =>
    match s.loop with
    | .range _ [] => some { s with loop := .recv }
    | _ => none
  | _ => none

/-- The number of goroutines inside a registry operation: the Readers inside a map
write, and the loop while it is inside the `range` of line 106, which encloses the
`delete` of line 111. -/
def inRegistry (s : State) : Nat :=
  s.inside.length + (if s.loop = .recv then 0 else 1)

/-- Mutual exclusion of the registry operations: at most one goroutine is inside
one. -/
def Exclusive (s : State) : Prop := inRegistry s ≤ 1

instance instDecidableExclusive (s : State) : Decidable (Exclusive s) := by
  unfold Exclusive
  infer_instance

/-- The runtime's fatal error: possible when two goroutines are inside a registry
operation at once. No deferred call runs and nothing is logged through `log`. -/
def runtimeFatal (s : State) : Option State :=
  if Exclusive s then none else some { s with exited := true }

/-- One step of the process. Nothing runs after the process has exited. An unbuffered
hand-off is a joint step of the sending and the receiving goroutine. -/
def step (s : State) (a : Action) : Option State :=
  if s.exited then none
  else
    match a with
    | .handoff _ _ _ => (handleConnections s a).bind (fun s1 => handleMessages s1 a)
    | .pop _ | .write _ _ | .skip _ | .endRange => handleMessages s a
    | .fatal => runtimeFatal s
    | _ => handleConnections s a

/-- Execute a sequence of steps, oldest first. -/
def run : List Action → State → Option State
  | [], s => some s
  | a :: rest, s => (step s a).bind (run rest)

/-- The process right after `main` has started `handleMessages`: nothing registered,
nothing in the channel, the loop waiting at line 104. -/
def init : State :=
  { clients := [], broadcast := [], loop := .recv, readers := fun _ => none,
    inside := [], closed := [], wire := [], logged := 0, exited := false }

/-- The messages client `c` has been sent, oldest first. -/
def received (c : Conn) (s : State) : List File :=
  (s.wire.filter (fun p => decide (p.1 = c))).map Prod.snd

/-! ## Derived notions used by the statements -/

/-- Well-formedness of a state: the key list of the map has no repetition, every
registered connection and every key still to be produced belongs to a started
`handleConnections` goroutine, and the iteration produces no key twice. -/
def Inv (s : State) : Prop :=
  s.clients.Nodup ∧ (∀ c ∈ s.clients, s.readers c ≠ none) ∧
  s.loop.todo.Nodup ∧ (∀ c ∈ s.loop.todo, s.readers c ≠ none)

instance instDecidableInv (s : State) : Decidable (Inv s) := by
  unfold Inv
  infer_instance

/-- The message of the broadcast in progress, if it has still to reach `c`. -/
def pending (c : Conn) (s : State) : List File :=
  match s.loop with
  | .recv => []
  | .range msg t => if c ∈ t then [msg] else []

/-- The messages whose send on `broadcast` (line 97) completed during a run, in the
order in which the sends completed. -/
def enqueued : List Action → List File
  | [] => []
  | .handoff _ file _ :: rest => file :: enqueued rest
  | .push _ file :: rest => file :: enqueued rest
  | _ :: rest => enqueued rest

/-- Whether `c` is registered in every state of the run of `acts` from `s`, the
first and the last included (and the run is executable). -/
def survives (c : Conn) : List Action → State → Bool
  | [], s => decide (c ∈ s.clients)
  | a :: rest, s =>
    decide (c ∈ s.clients) &&
      match step s a with
      | none => false
      | some t => survives c rest t

/-- One whole iteration of the outer loop of `handleMessages` with no other goroutine
running in between: the receive of `msg` from the sender `ws`, one write per key in
the order `order` with the outcomes `wr`, and the return to line 104. -/
def broadcastOf (ws : Conn) (msg : File) (order : List Conn) (wr : Conn → Bool) : List Action :=
  .handoff ws msg order :: (order.map (fun c => .write c (wr c)) ++ [.endRange])

/-- Whether a step is a failed read or a failed write of `c`: the two steps that
delete `c` from the map. -/
def removes (c : Conn) : Action → Bool
  | .readErr ws _ => decide (ws = c)
  | .write client ok => decide (client = c) && !ok
  | _ => false

/-- Whether a step adds a handle, or is a failed read or a failed write. -/
def disturbs : Action → Bool
  | .accept _ _ => true
  | .readErr _ _ => true
  | .write _ ok => !ok
  | _ => false

/-- The effect of one step on whether `h` has been added and has not since failed a
read or a write, following the wording of the registry invariant of the
specification: `b` says so before the step. -/
def noteStep (h : Conn) (b : Bool) : Action → Bool
  | .accept ws _ => if ws = h then true else b
  | .readErr ws _ => if ws = h then false else b
  | .write c ok => if c = h ∧ ok = false then false else b
  | _ => b

/-- Whether, in the history `acts` (oldest first), `h` has been added and has not
since failed a read or a write. -/
def addedNotFailed (h : Conn) (acts : List Action) : Bool :=
  acts.foldl (noteStep h) false

/-! ## Decoding of the message envelope

`ws.ReadJSON(&file)` (line 90) decodes the text of the next data frame with
`encoding/json` into a fresh `File` (line 88).  For a frame that holds a JSON object
the decoder goes through the members in order: a member whose key names no field of
`File` is skipped; a string stored under a key that names a field is assigned to the
field; `null` leaves the field as it is; any other value is a type error, which is
reported when the object has been read.  Nothing checks that a field was assigned. -/

/-- The message of the scenarios of the specification. -/
def hello : File := { Content := "hi", FileExtension := "txt" }

/-- A second message. -/
def world : File := { Content := "package main", FileExtension := "go" }

/-- Clients 1 and 2 connect. -/
def connectTwo : List Action := [.accept 1 none, .added 1, .accept 2 none, .added 2]

/-- Clients 1 and 2 are connected and both Readers wait for input:
`clients = [1, 2]`, the loop waits at line 104. -/
def twoClients : State := (run connectTwo init).getD init

/-- Clients 1, 2 and 3 connect and client 1 sends `hello`, which its Reader decodes. -/
def connectThree : List Action :=
  [.accept 1 none, .added 1, .accept 2 none, .added 2, .accept 3 none, .added 3,
   .readOk 1 hello]

/-- Clients 1, 2 and 3 are connected, the Reader of 1 is about to send `hello`, the
loop waits at line 104: `clients = [1, 2, 3]`. -/
def threeClients : State := (run connectThree init).getD init

/-- The write outcomes of a broadcast in which only the connection of client 2 is broken. -/
def onlyTwoFails : Conn → Bool := fun c => decide (c ≠ 2)

/-- Client 2 sends `world`, then client 1 sends `hello`; client 3 connects during the
first broadcast and its connection breaks at once. -/
def twoMessages : List Action :=
  [.readOk 1 hello, .readOk 2 world,
   .handoff 2 world [1, 2], .write 1 true, .accept 3 (some 1), .added 3, .write 2 true,
   .write 3 false, .endRange, .readErr 3 .disconnect, .deleted 3,
   .handoff 1 hello [2, 1], .write 2 true, .write 1 true, .endRange]

/-- The state `twoMessages` leads to from `twoClients`. -/
def afterTwoMessages : State := (run twoMessages twoClients).getD init

/-- Clients 1 and 2 connect, 1 sends `hello`, the write to 2 fails, then the Reader
of 2 sees its read fail. -/
def oneDrops : List Action :=
  [.accept 1 none, .added 1, .accept 2 none, .added 2, .readOk 1 hello,
   .handoff 1 hello [2, 1], .write 2 false, .readErr 2 .disconnect, .deleted 2,
   .write 1 true, .endRange]

/-- The state `oneDrops` leads to from `init`. -/
def afterOneDrops : State := (run oneDrops init).getD init

/-- Clients 1 and 2 connect, 1 sends `hello`, the loop receives it and writes it to 1;
before the loop writes it to 2, client 1 sends `world`, which its Reader decodes. -/
def secondWhileBusy : List Action :=
  [.accept 1 none, .added 1, .accept 2 none, .added 2, .readOk 1 hello,
   .handoff 1 hello [1, 2], .write 1 true, .readOk 1 world]

/-- The state `secondWhileBusy` leads to from `init`: the Reader of 1 is about to send
`world` while the loop is inside the broadcast of `hello`, the write to 2 to come. -/
def loopBusy : State := (run secondWhileBusy init).getD init

/-- From `threeClients`: the loop receives `hello` and starts with client 2, whose
connection is broken: the write fails and the loop closes and deletes 2 (lines
110-111); the Reader of 2 wakes with a read error and enters its own `delete`
(line 93) while the loop is still inside its `range`; the runtime ends the process. -/
def brokenTwo : List Action :=
  [.handoff 1 hello [2, 1, 3], .write 2 false, .readErr 2 .disconnect, .fatal]

/-- The state `brokenTwo` leads to from `threeClients`. -/
def afterBrokenTwo : State := (run brokenTwo threeClients).getD init

/-- From `twoClients`: client 3 connects and its Reader enters the map assignment of
line 85; the read of client 2 finds a malformed payload and its Reader enters the
`delete` of line 93; the runtime ends the process. -/
def dropWhileJoin : List Action :=
  [.accept 3 none, .readErr 2 .malformed, .fatal]

/-- The state `dropWhileJoin` leads to from `twoClients`. -/
def afterDropWhileJoin : State := (run dropWhileJoin twoClients).getD init

/-- From `loopBusy`: the write to client 2 fails and the loop deletes 2; the Reader of
2 wakes with a read error and enters its `delete` of the key that is already gone. -/
def removedTwice : List Action :=
  [.write 2 false, .readErr 2 .disconnect]

/-- The state `removedTwice` leads to from `loopBusy`. -/
def afterRemovedTwice : State := (run removedTwice loopBusy).getD init

/-- Clients 1 and 2 connect and disconnect at the same time: the reads of both
Readers fail and both enter the `delete` of line 93. -/
def bothDrop : List Action :=
  [.accept 1 none, .added 1, .accept 2 none, .added 2,
   .readErr 1 .disconnect, .readErr 2 .disconnect]

/-- The state `bothDrop` leads to from `init`. -/
def afterBothDrop : State := (run bothDrop init).getD init

/-- From `threeClients`: the broadcast of `hello`, during which client 2 sends `world`,
then the broadcast of `world`; nothing fails and nobody connects. -/
def quietTwo : List Action :=
  [.handoff 1 hello [2, 3, 1], .write 2 true, .readOk 2 world, .write 3 true,
   .write 1 true, .endRange,
   .handoff 2 world [1, 2, 3], .write 1 true, .write 2 true, .write 3 true, .endRange]

/-- The state `quietTwo` leads to from `threeClients`. -/
def afterQuietTwo : State := (run quietTwo threeClients).getD init

theorem step_upgradeErr {s t : State} :
    step s .upgradeErr = some t ↔
      s.exited = false ∧ t = { s with logged := s.logged + 1, exited := true } := by
  cases he : s.exited <;> simp [step, handleConnections, he, eq_comm]

theorem step_accept {s t : State} {ws : Conn} {seen : Option Nat} :
    step s (.accept ws seen) = some t ↔
      s.exited = false ∧ s.readers ws = none ∧
      t = { s with clients := mapSet s.clients ws, readers := setPC s.readers ws .adding,
                   inside := s.inside ++ [ws], loop := noteCreated s.loop ws seen } := by
  cases he : s.exited <;> simp [step, handleConnections, he, eq_comm]

theorem step_added {s t : State} {ws : Conn} :
    step s (.added ws) = some t ↔
      s.exited = false ∧ s.readers ws = some .adding ∧
      t = { s with readers := setPC s.readers ws .read, inside := s.inside.erase ws } := by
  cases he : s.exited <;> simp [step, handleConnections, he, eq_comm]

theorem step_readOk {s t : State} {ws : Conn} {file : File} :
    step s (.readOk ws file) = some t ↔
      s.exited = false ∧ s.readers ws = some .read ∧
      t = { s with readers := setPC s.readers ws (.send file) } := by
  cases he : s.exited <;> simp [step, handleConnections, he, eq_comm]

theorem step_readErr {s t : State} {ws : Conn} {e : ReadErr} :
    step s (.readErr ws e) = some t ↔
      s.exited = false ∧ s.readers ws = some .read ∧
      t = { s with logged := s.logged + 1, clients := mapDelete s.clients ws,
                   readers := setPC s.readers ws .deleting, inside := s.inside ++ [ws] } := by
  cases he : s.exited <;> simp [step, handleConnections, he, eq_comm]

theorem step_deleted {s t : State} {ws : Conn} :
    step s (.deleted ws) = some t ↔
      s.exited = false ∧ s.readers ws = some .deleting ∧
      t = { s with readers := setPC s.readers ws .done, inside := s.inside.erase ws,
                   closed := s.closed ++ [ws] } := by
  cases he : s.exited <;> simp [step, handleConnections, he, eq_comm]

theorem step_fatal {s t : State} :
    step s .fatal = some t ↔
      s.exited = false ∧ ¬ Exclusive s ∧ t = { s with exited := true } := by
  cases he : s.exited <;> simp [step, runtimeFatal, he]
  by_cases hx : Exclusive s <;> simp [hx, eq_comm]

theorem step_handoff {s t : State} {ws : Conn} {file : File} {order : List Conn} :
    step s (.handoff ws file order) = some t ↔
      s.exited = false ∧ s.readers ws = some (.send file) ∧ s.loop = .recv ∧
      s.broadcast = [] ∧ order.Perm s.clients ∧
      t = { s with readers := setPC s.readers ws .read, loop := .range file order } := by
  cases he : s.exited
  · by_cases hr : s.readers ws = some (.send file)
    · simp [step, handleConnections, handleMessages, he, hr, eq_comm, and_assoc]
    · simp [step, handleConnections, handleMessages, he, hr]
  · simp [step, he]

theorem step_push {s t : State} {ws : Conn} {file : File} :
    step s (.push ws file) = some t ↔
      s.exited = false ∧ s.readers ws = some (.send file) ∧
      s.broadcast.length < broadcastCap ∧
      t = { s with broadcast := s.broadcast ++ [file], readers := setPC s.readers ws .read } := by
  cases he : s.exited <;> simp [step, handleConnections, he, eq_comm, and_assoc]

theorem step_pop {s t : State} {order : List Conn} :
    step s (.pop order) = some t ↔
      s.exited = false ∧ s.loop = .recv ∧ order.Perm s.clients ∧
      ∃ msg rest, s.broadcast = msg :: rest ∧
        t = { s with broadcast := rest, loop := .range msg order } := by
  cases he : s.exited <;> simp [step, handleMessages, he]
  cases hb : s.broadcast <;> simp [eq_comm, and_assoc]

theorem step_write {s t : State} {client : Conn} {ok : Bool} :
    step s (.write client ok) = some t ↔
      s.exited = false ∧ client ∈ s.clients ∧
      ∃ msg rest, s.loop = .range msg (client :: rest) ∧
        t = (if ok then { s with wire := s.wire ++ [(client, msg)], loop := .range msg rest }
             else { s with logged := s.logged + 1, closed := s.closed ++ [client],
                           clients := mapDelete s.clients client, loop := .range msg rest }) := by
  cases he : s.exited <;> simp [step, handleMessages, he]
  rcases hl : s.loop with _ | ⟨msg, _ | ⟨c, rest⟩⟩ <;> simp
  by_cases hc : c = client
  · subst hc
    by_cases hm : c ∈ s.clients <;> cases ok <;> simp [hm, eq_comm]
    all_goals
      constructor
      · rintro rfl; exact ⟨_, _, ⟨rfl, rfl⟩, rfl⟩
      · rintro ⟨_, _, ⟨rfl, rfl⟩, h⟩; exact h
  · simp [hc]


theorem step_skip {s t : State} {client : Conn} :
    step s (.skip client) = some t ↔
      s.exited = false ∧ client ∉ s.clients ∧
      ∃ msg rest, s.loop = .range msg (client :: rest) ∧
        t = { s with loop := .range msg rest } := by
  cases he : s.exited <;> simp [step, handleMessages, he]
  rcases hl : s.loop with _ | ⟨msg, _ | ⟨c, rest⟩⟩ <;> simp
  by_cases hc : c = client
  · subst hc
    by_cases hm : c ∈ s.clients <;> simp [hm, eq_comm]
    constructor
    · rintro rfl; exact ⟨_, _, ⟨rfl, rfl⟩, rfl⟩
    · rintro ⟨_, _, ⟨rfl, rfl⟩, h⟩; exact h
  · simp [hc]

theorem step_endRange {s t : State} :
    step s .endRange = some t ↔
      s.exited = false ∧ ∃ msg, s.loop = .range msg [] ∧ t = { s with loop := .recv } := by
  cases he : s.exited <;> simp [step, handleMessages, he]
  rcases hl : s.loop with _ | ⟨msg, _ | ⟨c, rest⟩⟩ <;> simp [eq_comm]

/-! ## Lemmas: the map, and preservation of well-formedness -/

theorem mem_mapSet {m : List Conn} {ws c : Conn} : c ∈ mapSet m ws ↔ c ∈ m ∨ c = ws := by
  unfold mapSet
  split <;> simp_all

theorem mem_mapDelete {m : List Conn} {ws c : Conn} : c ∈ mapDelete m ws ↔ c ∈ m ∧ c ≠ ws := by
  simp [mapDelete]

theorem nodup_mapSet {m : List Conn} {ws : Conn} (h : m.Nodup) : (mapSet m ws).Nodup := by
  unfold mapSet
  split
  · exact h
  · rw [List.nodup_append]
    simp_all

theorem nodup_mapDelete {m : List Conn} {ws : Conn} (h : m.Nodup) : (mapDelete m ws).Nodup :=
  h.filter _

theorem setPC_ne_none {r : Conn → Option ReaderPC} {ws c : Conn} {pc : ReaderPC}
    (h : r c ≠ none) : setPC r ws pc c ≠ none := by
  unfold setPC
  split <;> simp_all

theorem todo_noteCreated_perm (l : LoopPC) (ws : Conn) (seen : Option Nat) :
    (noteCreated l ws seen).todo = l.todo ∨ (noteCreated l ws seen).todo.Perm (ws :: l.todo) := by
  cases seen with
  | none => exact Or.inl rfl
  | some i =>
    cases l with
    | recv => exact Or.inl rfl
    | range msg t =>
      right
      simp only [noteCreated, LoopPC.todo]
      have h1 : (List.take i t ++ ws :: List.drop i t).Perm (ws :: (List.take i t ++ List.drop i t)) :=
        List.perm_middle
      rwa [List.take_append_drop] at h1

theorem inv_step {s t : State} {a : Action} (hi : Inv s) (h : step s a = some t) : Inv t := by
  obtain ⟨h1, h2, h3, h4⟩ := hi
  cases a with
  | upgradeErr =>
    obtain ⟨-, rfl⟩ := step_upgradeErr.1 h
    exact ⟨h1, h2, h3, h4⟩
  | accept ws seen =>
    obtain ⟨-, hr, rfl⟩ := step_accept.1 h
    have hws : ws ∉ s.loop.todo := fun hm => h4 ws hm hr
    refine ⟨nodup_mapSet h1, ?_, ?_, ?_⟩
    · intro c hc
      rcases mem_mapSet.1 hc with hc | rfl
      · exact setPC_ne_none (h2 c hc)
      · simp [setPC]
    · rcases todo_noteCreated_perm s.loop ws seen with he | hp
      · simpa [he] using h3
      · exact hp.nodup_iff.2 (List.nodup_cons.2 ⟨hws, h3⟩)
    · intro c hc
      rcases todo_noteCreated_perm s.loop ws seen with he | hp
      · simp only [he] at hc
        exact setPC_ne_none (h4 c hc)
      · rcases List.mem_cons.1 (hp.mem_iff.1 hc) with rfl | hc
        · simp [setPC]
        · exact setPC_ne_none (h4 c hc)
  | readOk ws file =>
    obtain ⟨-, -, rfl⟩ := step_readOk.1 h
    exact ⟨h1, fun c hc => setPC_ne_none (h2 c hc), h3, fun c hc => setPC_ne_none (h4 c hc)⟩
  | readErr ws e =>
    obtain ⟨-, -, rfl⟩ := step_readErr.1 h
    exact ⟨nodup_mapDelete h1, fun c hc => setPC_ne_none (h2 c (mem_mapDelete.1 hc).1), h3,
      fun c hc => setPC_ne_none (h4 c hc)⟩
  | handoff ws file order =>
    obtain ⟨-, -, -, -, hp, rfl⟩ := step_handoff.1 h
    exact ⟨h1, fun c hc => setPC_ne_none (h2 c hc), hp.nodup_iff.2 h1,
      fun c hc => setPC_ne_none (h2 c (hp.mem_iff.1 hc))⟩
  | push ws file =>
    obtain ⟨-, -, -, rfl⟩ := step_push.1 h
    exact ⟨h1, fun c hc => setPC_ne_none (h2 c hc), h3, fun c hc => setPC_ne_none (h4 c hc)⟩
  | pop order =>
    obtain ⟨-, -, hp, msg, rest, -, rfl⟩ := step_pop.1 h
    exact ⟨h1, h2, hp.nodup_iff.2 h1, fun c hc => h2 c (hp.mem_iff.1 hc)⟩
  | write client ok =>
    obtain ⟨-, hm, msg, rest, hl, rfl⟩ := step_write.1 h
    simp only [hl, LoopPC.todo, List.nodup_cons, List.mem_cons] at h3 h4
    cases ok
    · exact ⟨nodup_mapDelete h1, fun c hc => h2 c (mem_mapDelete.1 hc).1, h3.2,
        fun c hc => h4 c (Or.inr hc)⟩
    · exact ⟨h1, h2, h3.2, fun c hc => h4 c (Or.inr hc)⟩
  | skip client =>
    obtain ⟨-, hm, msg, rest, hl, rfl⟩ := step_skip.1 h
    simp only [hl, LoopPC.todo, List.nodup_cons, List.mem_cons] at h3 h4
    exact ⟨h1, h2, h3.2, fun c hc => h4 c (Or.inr hc)⟩
  | endRange =>
    obtain ⟨-, msg, hl, rfl⟩ := step_endRange.1 h
    exact ⟨h1, h2, List.nodup_nil, by simp [LoopPC.todo]⟩
  | added ws =>
    obtain ⟨-, -, rfl⟩ := step_added.1 h
    exact ⟨h1, fun c hc => setPC_ne_none (h2 c hc), h3, fun c hc => setPC_ne_none (h4 c hc)⟩
  | deleted ws =>
    obtain ⟨-, -, rfl⟩ := step_deleted.1 h
    exact ⟨h1, fun c hc => setPC_ne_none (h2 c hc), h3, fun c hc => setPC_ne_none (h4 c hc)⟩
  | fatal =>
    obtain ⟨-, -, rfl⟩ := step_fatal.1 h
    exact ⟨h1, h2, h3, h4⟩

theorem inv_run {acts : List Action} {s t : State} (hi : Inv s) (h : run acts s = some t) :
    Inv t := by
  induction acts generalizing s with
  | nil =>
    simp only [run, Option.some.injEq] at h
    exact h ▸ hi
  | cons a rest ih =>
    simp only [run, Option.bind_eq_some] at h
    obtain ⟨s1, hs1, hr⟩ := h
    exact ih (inv_step hi hs1) hr

theorem inv_init : Inv init := by decide

/-! ## Lemmas: order of delivery -/

theorem enqueued_cons (a : Action) (rest : List Action) :
    enqueued (a :: rest) = enqueued [a] ++ enqueued rest := by
  cases a <;> simp [enqueued]

theorem survives_mem {c : Conn} {acts : List Action} {s : State}
    (h : survives c acts s = true) : c ∈ s.clients := by
  cases acts <;> simp_all [survives]

theorem survives_cons {c : Conn} {a : Action} {rest : List Action} {s : State}
    (h : survives c (a :: rest) s = true) :
    c ∈ s.clients ∧ ∃ t, step s a = some t ∧ survives c rest t = true := by
  simp only [survives, Bool.and_eq_true, decide_eq_true_eq] at h
  refine ⟨h.1, ?_⟩
  cases hs : step s a with
  | none => simp [hs] at h
  | some t => exact ⟨t, rfl, by simpa [hs] using h.2⟩

theorem pending_noteCreated {c ws : Conn} (s : State) (seen : Option Nat) (h : c ≠ ws) :
    pending c { s with loop := noteCreated s.loop ws seen } = pending c s := by
  cases seen with
  | none => rfl
  | some i =>
    unfold pending
    cases hl : s.loop with
    | recv => simp [noteCreated]
    | range msg t =>
      have : c ∈ List.take i t ++ ws :: List.drop i t ↔ c ∈ t := by
        have h2 : c ∈ List.take i t ++ List.drop i t ↔ c ∈ t := by rw [List.take_append_drop]
        simp only [List.mem_append, List.mem_cons] at h2 ⊢
        tauto
      simp [noteCreated, this]

/-- One step keeps the order of what a registered client has been and will be sent. -/
theorem fifo_step {s t : State} {a : Action} {c : Conn} (hi : Inv s)
    (h : step s a = some t) (hc : c ∈ s.clients) (hc' : c ∈ t.clients) :
    received c t ++ pending c t ++ t.broadcast =
      received c s ++ pending c s ++ s.broadcast ++ enqueued [a] := by
  obtain ⟨h1, h2, h3, h4⟩ := hi
  cases a with
  | upgradeErr =>
    obtain ⟨-, rfl⟩ := step_upgradeErr.1 h
    simp [received, pending, enqueued]
  | accept ws seen =>
    obtain ⟨-, hr, rfl⟩ := step_accept.1 h
    have hne : c ≠ ws := fun e => h2 c hc (e ▸ hr)
    have hp := pending_noteCreated s seen hne
    simp only [pending] at hp
    simp [received, pending, enqueued, hp]
  | readOk ws file =>
    obtain ⟨-, -, rfl⟩ := step_readOk.1 h
    simp [received, pending, enqueued]
  | readErr ws e =>
    obtain ⟨-, -, rfl⟩ := step_readErr.1 h
    simp [received, pending, enqueued]
  | handoff ws file order =>
    obtain ⟨-, -, hl, hb, hp, rfl⟩ := step_handoff.1 h
    have : c ∈ order := hp.mem_iff.2 hc
    simp [received, pending, enqueued, hl, hb, this]
  | push ws file =>
    obtain ⟨-, -, -, rfl⟩ := step_push.1 h
    simp [received, pending, enqueued]
  | pop order =>
    obtain ⟨-, hl, hp, msg, rest, hb, rfl⟩ := step_pop.1 h
    have : c ∈ order := hp.mem_iff.2 hc
    simp [received, pending, enqueued, hl, hb, this]
  | write client ok =>
    obtain ⟨-, hm, msg, rest, hl, rfl⟩ := step_write.1 h
    simp only [hl, LoopPC.todo, List.nodup_cons] at h3
    by_cases hcc : client = c
    · subst hcc
      cases ok
      · simp [mem_mapDelete] at hc'
      · simp [received, pending, enqueued, hl, h3.1]
    · have hcc' : c ≠ client := fun e => hcc e.symm
      cases ok <;> simp [received, pending, enqueued, hl, hcc, hcc']
  | skip client =>
    obtain ⟨-, hm, msg, rest, hl, rfl⟩ := step_skip.1 h
    have hcc : c ≠ client := fun e => hm (e ▸ hc)
    simp [received, pending, enqueued, hl, hcc]
  | endRange =>
    obtain ⟨-, msg, hl, rfl⟩ := step_endRange.1 h
    simp [received, pending, enqueued, hl]
  | added ws =>
    obtain ⟨-, -, rfl⟩ := step_added.1 h
    simp [received, pending, enqueued]
  | deleted ws =>
    obtain ⟨-, -, rfl⟩ := step_deleted.1 h
    simp [received, pending, enqueued]
  | fatal =>
    obtain ⟨-, -, rfl⟩ := step_fatal.1 h
    simp [received, pending, enqueued]

theorem fifo_run {acts : List Action} {s t : State} {c : Conn} (hi : Inv s)
    (h : run acts s = some t) (hs : survives c acts s = true) :
    received c t ++ pending c t ++ t.broadcast =
      received c s ++ pending c s ++ s.broadcast ++ enqueued acts := by
  induction acts generalizing s with
  | nil =>
    simp only [run, Option.some.injEq] at h
    subst h
    simp [enqueued]
  | cons a rest ih =>
    obtain ⟨hc, s1, hs1, hsv⟩ := survives_cons hs
    simp only [run, hs1, Option.some_bind] at h
    rw [ih (inv_step hi hs1) h hsv, fifo_step hi hs1 hc (survives_mem hsv), enqueued_cons a rest]
    simp [List.append_assoc]

/-! ## Lemmas: one uninterrupted broadcast -/

theorem run_append (as bs : List Action) (s : State) :
    run (as ++ bs) s = (run as s).bind (run bs) := by
  induction as generalizing s with
  | nil => simp [run]
  | cons a rest ih =>
    simp only [List.cons_append, run]
    cases step s a with
    | none => simp
    | some t => simp [ih]

theorem received_snoc (c d : Conn) (msg : File) (w : List (Conn × File)) :
    (List.filter (fun p => decide (p.1 = c)) (w ++ [(d, msg)])).map Prod.snd =
      (List.filter (fun p => decide (p.1 = c)) w).map Prod.snd ++ (if d = c then [msg] else []) := by
  by_cases h : d = c <;> simp [List.filter_append, h]

/-- The writes of one uninterrupted iteration over `todo`. -/
theorem run_writes (msg : File) (wr : Conn → Bool) (todo : List Conn) (s : State)
    (he : s.exited = false) (hl : s.loop = .range msg todo) (hn : todo.Nodup)
    (hsub : ∀ c ∈ todo, c ∈ s.clients) :
    ∃ t, run (todo.map (fun c => .write c (wr c))) s = some t ∧
      t.exited = false ∧ t.loop = .range msg [] ∧
      t.clients = s.clients.filter (fun c => decide (c ∉ todo ∨ wr c = true)) ∧
      (∀ c, received c t = received c s ++ if c ∈ todo ∧ wr c = true then [msg] else []) ∧
      t.readers = s.readers ∧ t.broadcast = s.broadcast ∧
      (∀ c, c ∈ t.closed ↔ c ∈ s.closed ∨ (c ∈ todo ∧ wr c = false)) := by
  induction todo generalizing s with
  | nil =>
    refine ⟨s, rfl, he, hl, ?_, ?_, rfl, rfl, ?_⟩ <;> simp
  | cons d rest ih =>
    obtain ⟨hd, hn'⟩ := List.nodup_cons.1 hn
    have hdm : d ∈ s.clients := hsub d (List.mem_cons_self _ _)
    cases hw : wr d with
    | true =>
      have hs : step s (.write d true) = some _ := step_write.2 ⟨he, hdm, msg, rest, hl, rfl⟩
      simp only [if_true] at hs
      obtain ⟨t, hr, h1, h2, h3, h4, h5, h6, h7⟩ :=
        ih { s with wire := s.wire ++ [(d, msg)], loop := .range msg rest } he rfl hn'
          (fun c hc => hsub c (List.mem_cons_of_mem _ hc))
      refine ⟨t, by simp [run, hw, hs, hr], h1, h2, ?_, ?_, h5, h6, ?_⟩
      · rw [h3]
        apply List.filter_congr
        intro x _
        by_cases hx : x = d
        · subst hx; simp [hw, hd]
        · simp [hx]
      · intro c
        rw [h4]
        simp only [received, received_snoc, List.append_assoc, List.append_cancel_left_eq]
        by_cases hx : d = c
        · subst hx; simp [hw, hd]
        · have hx' : c ≠ d := fun e => hx e.symm
          simp [hx, hx']
      · intro c
        rw [h7]
        by_cases hx : c = d
        · subst hx; simp [hw, hd]
        · simp [hx]
    | false =>
      have hs : step s (.write d false) = some _ := step_write.2 ⟨he, hdm, msg, rest, hl, rfl⟩
      simp only [Bool.false_eq_true, if_false] at hs
      obtain ⟨t, hr, h1, h2, h3, h4, h5, h6, h7⟩ :=
        ih { s with logged := s.logged + 1, closed := s.closed ++ [d],
                    clients := mapDelete s.clients d, loop := .range msg rest } he rfl hn'
        (fun c hc => mem_mapDelete.2 ⟨hsub c (List.mem_cons_of_mem _ hc),
          fun e => hd (e ▸ hc)⟩)
      refine ⟨t, by simp [run, hw, hs, hr], h1, h2, ?_, ?_, h5, h6, ?_⟩
      · rw [h3]
        simp only [mapDelete, List.filter_filter]
        apply List.filter_congr
        intro x _
        by_cases hx : x = d
        · subst hx; simp [hw]
        · simp [hx]
      · intro c
        rw [h4]
        simp only [received, List.append_cancel_left_eq]
        by_cases hx : c = d
        · subst hx; simp [hw, hd]
        · simp [hx]
      · intro c
        rw [h7]
        by_cases hx : c = d
        · subst hx; simp [hw]
        · simp [hx]

/-- An uninterrupted broadcast iteration runs to completion, with these effects. -/
theorem run_broadcastOf (ws : Conn) (msg : File) (order : List Conn) (wr : Conn → Bool)
    (s : State) (he : s.exited = false) (hr : s.readers ws = some (.send msg))
    (hl : s.loop = .recv) (hb : s.broadcast = []) (hn : s.clients.Nodup)
    (hp : order.Perm s.clients) :
    ∃ t, run (broadcastOf ws msg order wr) s = some t ∧
      t.exited = false ∧ t.loop = .recv ∧
      t.clients = s.clients.filter (fun c => wr c) ∧
      (∀ c, received c t = received c s ++ if c ∈ s.clients ∧ wr c = true then [msg] else []) ∧
      t.readers = setPC s.readers ws .read ∧ t.broadcast = [] ∧
      (∀ c, c ∈ t.closed ↔ c ∈ s.closed ∨ (c ∈ s.clients ∧ wr c = false)) := by
  have hs := step_handoff.2 ⟨he, hr, hl, hb, hp, rfl⟩
  obtain ⟨t, hrun, h1, h2, h3, h4, h5, h6, h7⟩ := run_writes msg wr order
    { s with readers := setPC s.readers ws .read, loop := .range msg order } he rfl
    (hp.nodup_iff.2 hn) (fun c hc => hp.mem_iff.1 hc)
  have hend := step_endRange.2 ⟨h1, msg, h2, rfl⟩
  refine ⟨{ t with loop := .recv }, ?_, h1, rfl, ?_, ?_, h5, by simpa [hb] using h6, ?_⟩
  · simp [broadcastOf, run, hs, run_append, hrun, hend]
  · show t.clients = _
    rw [h3]
    apply List.filter_congr
    intro x hx
    simp [hp.mem_iff.2 hx]
  · intro c
    have := h4 c
    simp only [received, hp.mem_iff] at this ⊢
    exact this
  · intro c
    have := h7 c
    simp only [hp.mem_iff] at this
    exact this

/-! ## Lemmas: what stays and what goes -/

theorem step_write_absent {s : State} {h : Conn} (hm : h ∉ s.clients) (ok : Bool) :
    step s (.write h ok) = none := by
  cases hs : step s (.write h ok) with
  | none => rfl
  | some t => exact absurd (step_write.1 hs).2.1 hm

theorem stays_step {s t : State} {a : Action} {c : Conn} (hs : step s a = some t)
    (hc : c ∈ s.clients) (hr : removes c a = false) : c ∈ t.clients := by
  cases a with
  | upgradeErr =>
    obtain ⟨-, rfl⟩ := step_upgradeErr.1 hs
    exact hc
  | accept ws seen =>
    obtain ⟨-, -, rfl⟩ := step_accept.1 hs
    exact mem_mapSet.2 (Or.inl hc)
  | readOk ws file =>
    obtain ⟨-, -, rfl⟩ := step_readOk.1 hs
    exact hc
  | readErr ws e =>
    obtain ⟨-, -, rfl⟩ := step_readErr.1 hs
    have hne : c ≠ ws := fun e => by simp [removes, e] at hr
    exact mem_mapDelete.2 ⟨hc, hne⟩
  | handoff ws file order =>
    obtain ⟨-, -, -, -, -, rfl⟩ := step_handoff.1 hs
    exact hc
  | push ws file =>
    obtain ⟨-, -, -, rfl⟩ := step_push.1 hs
    exact hc
  | pop order =>
    obtain ⟨-, -, -, msg, rest, -, rfl⟩ := step_pop.1 hs
    exact hc
  | write client ok =>
    obtain ⟨-, -, msg, rest, -, rfl⟩ := step_write.1 hs
    cases ok
    · have hne : c ≠ client := fun e => by simp [removes, e] at hr
      exact mem_mapDelete.2 ⟨hc, hne⟩
    · exact hc
  | skip client =>
    obtain ⟨-, -, msg, rest, -, rfl⟩ := step_skip.1 hs
    exact hc
  | endRange =>
    obtain ⟨-, msg, -, rfl⟩ := step_endRange.1 hs
    exact hc
  | added ws =>
    obtain ⟨-, -, rfl⟩ := step_added.1 hs
    exact hc
  | deleted ws =>
    obtain ⟨-, -, rfl⟩ := step_deleted.1 hs
    exact hc
  | fatal =>
    obtain ⟨-, -, rfl⟩ := step_fatal.1 hs
    exact hc

theorem survives_of_no_removal {acts : List Action} {s t : State} {c : Conn}
    (hs : run acts s = some t) (hc : c ∈ s.clients)
    (hr : ∀ a ∈ acts, removes c a = false) : survives c acts s = true := by
  induction acts generalizing s with
  | nil => simpa [survives] using hc
  | cons a rest ih =>
    simp only [run, Option.bind_eq_some] at hs
    obtain ⟨s1, hs1, hrest⟩ := hs
    have h1 := stays_step hs1 hc (hr a (List.mem_cons_self _ _))
    have h2 := ih hrest h1 (fun x hx => hr x (List.mem_cons_of_mem _ hx))
    simp [survives, hc, hs1, h2]

theorem removes_of_disturbs {a : Action} (c : Conn) (h : disturbs a = false) :
    removes c a = false := by
  cases a <;> simp_all [disturbs, removes]

theorem quiet_step {s t : State} {a : Action} (hs : step s a = some t)
    (hd : disturbs a = false) : t.clients = s.clients := by
  cases a with
  | upgradeErr =>
    obtain ⟨-, rfl⟩ := step_upgradeErr.1 hs
    rfl
  | accept ws seen => simp [disturbs] at hd
  | readOk ws file =>
    obtain ⟨-, -, rfl⟩ := step_readOk.1 hs
    rfl
  | readErr ws e => simp [disturbs] at hd
  | handoff ws file order =>
    obtain ⟨-, -, -, -, -, rfl⟩ := step_handoff.1 hs
    rfl
  | push ws file =>
    obtain ⟨-, -, -, rfl⟩ := step_push.1 hs
    rfl
  | pop order =>
    obtain ⟨-, -, -, msg, rest, -, rfl⟩ := step_pop.1 hs
    rfl
  | write client ok =>
    obtain ⟨-, -, msg, rest, -, rfl⟩ := step_write.1 hs
    cases ok
    · simp [disturbs] at hd
    · rfl
  | skip client =>
    obtain ⟨-, -, msg, rest, -, rfl⟩ := step_skip.1 hs
    rfl
  | endRange =>
    obtain ⟨-, msg, -, rfl⟩ := step_endRange.1 hs
    rfl
  | added ws =>
    obtain ⟨-, -, rfl⟩ := step_added.1 hs
    rfl
  | deleted ws =>
    obtain ⟨-, -, rfl⟩ := step_deleted.1 hs
    rfl
  | fatal =>
    obtain ⟨-, -, rfl⟩ := step_fatal.1 hs
    rfl

/-- Nothing is written to a connection that is not registered. -/
theorem received_step_absent {s t : State} {a : Action} {c : Conn}
    (hs : step s a = some t) (hc : c ∉ s.clients) : received c t = received c s := by
  cases a with
  | upgradeErr =>
    obtain ⟨-, rfl⟩ := step_upgradeErr.1 hs
    rfl
  | accept ws seen =>
    obtain ⟨-, -, rfl⟩ := step_accept.1 hs
    rfl
  | readOk ws file =>
    obtain ⟨-, -, rfl⟩ := step_readOk.1 hs
    rfl
  | readErr ws e =>
    obtain ⟨-, -, rfl⟩ := step_readErr.1 hs
    rfl
  | handoff ws file order =>
    obtain ⟨-, -, -, -, -, rfl⟩ := step_handoff.1 hs
    rfl
  | push ws file =>
    obtain ⟨-, -, -, rfl⟩ := step_push.1 hs
    rfl
  | pop order =>
    obtain ⟨-, -, -, msg, rest, -, rfl⟩ := step_pop.1 hs
    rfl
  | write client ok =>
    obtain ⟨-, hm, msg, rest, -, rfl⟩ := step_write.1 hs
    cases ok
    · rfl
    · have hne : client ≠ c := fun e => hc (e ▸ hm)
      simp [received, List.filter_append, hne]
  | skip client =>
    obtain ⟨-, -, msg, rest, -, rfl⟩ := step_skip.1 hs
    rfl
  | endRange =>
    obtain ⟨-, msg, -, rfl⟩ := step_endRange.1 hs
    rfl
  | added ws =>
    obtain ⟨-, -, rfl⟩ := step_added.1 hs
    rfl
  | deleted ws =>
    obtain ⟨-, -, rfl⟩ := step_deleted.1 hs
    rfl
  | fatal =>
    obtain ⟨-, -, rfl⟩ := step_fatal.1 hs
    rfl

theorem quiet_run {acts : List Action} {s t : State} (hs : run acts s = some t)
    (hd : ∀ a ∈ acts, disturbs a = false) :
    t.clients = s.clients ∧ ∀ c, c ∉ s.clients → received c t = received c s := by
  induction acts generalizing s with
  | nil =>
    simp only [run, Option.some.injEq] at hs
    subst hs
    exact ⟨rfl, fun _ _ => rfl⟩
  | cons a rest ih =>
    simp only [run, Option.bind_eq_some] at hs
    obtain ⟨s1, hs1, hrest⟩ := hs
    have h1 := quiet_step hs1 (hd a (List.mem_cons_self _ _))
    obtain ⟨h2, h3⟩ := ih hrest (fun x hx => hd x (List.mem_cons_of_mem _ hx))
    refine ⟨h2.trans h1, fun c hc => ?_⟩
    rw [h3 c (h1 ▸ hc), received_step_absent hs1 hc]

/-! ## Claims C1 and C2: one broadcast -/

/-- C1 (isolation of failure), evaluated on the code. Clients 1, 2 and 3 are connected
and 1 sends `hello`; the loop starts with client 2, whose connection is broken. The
write fails, the loop closes and deletes 2 (lines 110-111), and the Reader of 2, woken
by the close, enters its own `delete` (line 93) while the loop is inside its `range`:
two goroutines are inside a registry operation and the runtime's fatal error is a
step that is taken. After it the process has exited in the middle of the broadcast:
clients 1 and 3 have not been sent `hello`, the loop is not back at line 104 and no
goroutine takes a step again. In the schedule in which the Reader of 2 stays out of
the loop's way the same broadcast completes and clients 1 and 3 are sent `hello`. -/
theorem C1_failed_write_can_end_the_process :
    run brokenTwo threeClients = some afterBrokenTwo ∧
    afterBrokenTwo.exited = true ∧
    afterBrokenTwo.inside = [2] ∧ afterBrokenTwo.loop = .range hello [1, 3] ∧
    received 1 afterBrokenTwo = [] ∧ received 3 afterBrokenTwo = [] ∧
    (∀ a, step afterBrokenTwo a = none) ∧
    (run (broadcastOf 1 hello [2, 1, 3] onlyTwoFails) threeClients).map
      (fun t => (t.exited, t.clients, received 1 t, received 3 t)) =
      some (false, [1, 3], [hello], [hello]) := by
  refine ⟨rfl, rfl, rfl, rfl, rfl, rfl, ?_, rfl⟩
  intro a
  have he : afterBrokenTwo.exited = true := rfl
  simp [step, he]

/-- C2 (broadcast completeness). Take any well-formed state with registry `S` in which
the loop waits at line 104 and the Reader of a registered handle `ws` is about to send
`msg`, and any iteration order of the map. When every write succeeds and no other
goroutine takes a step, the broadcast iteration runs to its end, every handle of `S`
(the sender `ws` among them) is sent exactly one copy of `msg`, unchanged, no other
connection is sent anything, and the registry is `S` again with the loop back at
line 104. And whatever the goroutines do from that state, as long as no read and no
write fails and no handle is added: when the loop is back at line 104 the registry is
`S`, every handle of `S` has been sent exactly the messages enqueued meanwhile, one
copy of each in the order of enqueueing, and no other connection has been sent
anything. -/
theorem C2_broadcast_completeness (s : State) (ws : Conn) (msg : File) (order : List Conn)
    (hi : Inv s) (he : s.exited = false) (hl : s.loop = .recv) (hb : s.broadcast = [])
    (hr : s.readers ws = some (.send msg)) (hws : ws ∈ s.clients)
    (hp : order.Perm s.clients) :
    (∃ t, run (broadcastOf ws msg order (fun _ => true)) s = some t ∧
      (∀ c ∈ s.clients, received c t = received c s ++ [msg]) ∧
      received ws t = received ws s ++ [msg] ∧
      (∀ c, c ∉ s.clients → received c t = received c s) ∧
      t.clients = s.clients ∧ t.loop = .recv ∧ t.exited = false) ∧
    (∀ acts t, run acts s = some t → t.loop = .recv → t.broadcast = [] →
      (∀ a ∈ acts, disturbs a = false) →
      t.clients = s.clients ∧
      (∀ c ∈ s.clients, received c t = received c s ++ enqueued acts) ∧
      (∀ c, c ∉ s.clients → received c t = received c s)) := by
  obtain ⟨t, hrun, h1, h2, h3, h4, -, -, -⟩ :=
    run_broadcastOf ws msg order (fun _ => true) s he hr hl hb hi.1 hp
  have hall : ∀ c ∈ s.clients, received c t = received c s ++ [msg] := by
    intro c hc
    rw [h4 c]
    simp [hc]
  refine ⟨⟨t, hrun, hall, hall ws hws, ?_, ?_, h2, h1⟩, ?_⟩
  · intro c hc
    rw [h4 c]
    simp [hc]
  · rw [h3]
    simp
  · intro acts u hu hul hub hquiet
    obtain ⟨hcl, hrest⟩ := quiet_run hu hquiet
    refine ⟨hcl, ?_, hrest⟩
    intro c hc
    have hsv := survives_of_no_removal hu hc
      (fun a ha => removes_of_disturbs c (hquiet a ha))
    have := fifo_run hi hu hsv
    simpa [pending, hl, hb, hul, hub] using this

/-- Witness of C2: clients 1, 2, 3, all writes succeed, 1 sends `hello`; alone
(`broadcastOf`), and followed by a message of client 2 (`quietTwo`). -/
theorem C2_broadcast_completeness_witness :
    Inv threeClients ∧ threeClients.readers 1 = some (.send hello) ∧
    1 ∈ threeClients.clients ∧ List.Perm [2, 3, 1] threeClients.clients ∧
    (∃ t, run (broadcastOf 1 hello [2, 3, 1] (fun _ => true)) threeClients = some t ∧
      (∀ c ∈ threeClients.clients, received c t = received c threeClients ++ [hello]) ∧
      received 1 t = received 1 threeClients ++ [hello] ∧
      (∀ c, c ∉ threeClients.clients → received c t = received c threeClients) ∧
      t.clients = threeClients.clients ∧ t.loop = .recv ∧ t.exited = false) ∧
    run quietTwo threeClients = some afterQuietTwo ∧ enqueued quietTwo = [hello, world] ∧
    (∀ c ∈ threeClients.clients,
      received c afterQuietTwo = received c threeClients ++ enqueued quietTwo) :=
  ⟨by decide, rfl, by decide, by decide,
    (C2_broadcast_completeness threeClients 1 hello [2, 3, 1] (by decide) rfl rfl rfl rfl
      (by decide) (by decide)).1,
    rfl, rfl,
    ((C2_broadcast_completeness threeClients 1 hello [2, 3, 1] (by decide) rfl rfl rfl rfl
      (by decide) (by decide)).2 quietTwo afterQuietTwo rfl rfl rfl (by decide)).2.1⟩

/-! ## Claim C3: order of delivery -/

/-- C3 (FIFO ordering). In every run from a well-formed state during which `c` stays
registered, what `c` has been sent, followed by the message of the broadcast in
progress if it has still to reach `c`, followed by the content of the channel, is
what it was at the start followed by the messages in the order in which their sends
completed, whoever sent them. In particular, from a state with the loop waiting and
the channel empty to another such state, `c` has been sent exactly the enqueued
messages, in the order of enqueueing. -/
theorem C3_fifo_ordering (acts : List Action) (s t : State) (c : Conn) (hi : Inv s)
    (hrun : run acts s = some t) (hstay : survives c acts s = true) :
    received c t ++ pending c t ++ t.broadcast =
      received c s ++ pending c s ++ s.broadcast ++ enqueued acts ∧
    (s.loop = .recv → s.broadcast = [] → t.loop = .recv → t.broadcast = [] →
      received c t = received c s ++ enqueued acts) := by
  have h := fifo_run hi hrun hstay
  refine ⟨h, ?_⟩
  intro h1 h2 h3 h4
  simpa [pending, h1, h2, h3, h4] using h

/-- Witness of C3: `world` is enqueued before `hello`, by different senders, and
client 2 is sent `world`, then `hello`. -/
theorem C3_fifo_ordering_witness :
    Inv twoClients ∧ run twoMessages twoClients = some afterTwoMessages ∧
    survives 2 twoMessages twoClients = true ∧ enqueued twoMessages = [world, hello] ∧
    received 2 afterTwoMessages = received 2 twoClients ++ enqueued twoMessages :=
  ⟨by decide, rfl, by decide, rfl,
    (C3_fifo_ordering twoMessages twoClients afterTwoMessages 2 (by decide) rfl
      (by decide)).2 rfl rfl rfl rfl⟩

/-! ## Claims C4, C5 and C9: the registry -/

/-- C4 (read failure), evaluated on the code. Clients 1 and 2 are connected; client 3
connects and its Reader enters the map assignment of line 85, and at that moment the
read of client 2 fails on a malformed payload, so that its Reader enters the `delete`
of line 93. Two goroutines are inside a map write and the runtime's fatal error is a
step that is taken. After it the process has exited: the Reader of 2 has not closed
its connection, and neither the loop nor the Readers of clients 1 and 3, which had no
part in the failure, take a step again. -/
theorem C4_read_failure_can_end_the_process :
    run dropWhileJoin twoClients = some afterDropWhileJoin ∧
    afterDropWhileJoin.exited = true ∧
    afterDropWhileJoin.inside = [3, 2] ∧
    afterDropWhileJoin.readers 2 = some .deleting ∧ 2 ∉ afterDropWhileJoin.closed ∧
    afterDropWhileJoin.readers 1 = some .read ∧
    afterDropWhileJoin.readers 3 = some .adding ∧
    afterDropWhileJoin.loop = .recv ∧
    (∀ a, step afterDropWhileJoin a = none) := by
  refine ⟨rfl, rfl, rfl, rfl, by decide, rfl, rfl, rfl, ?_⟩
  intro a
  have he : afterDropWhileJoin.exited = true := rfl
  simp [step, he]

theorem noteStep_step {s t : State} {a : Action} {h : Conn} {b : Bool}
    (hs : step s a = some t) (hb : h ∈ s.clients ↔ b = true) :
    h ∈ t.clients ↔ noteStep h b a = true := by
  cases a with
  | upgradeErr =>
    obtain ⟨-, rfl⟩ := step_upgradeErr.1 hs
    simpa [noteStep] using hb
  | accept ws seen =>
    obtain ⟨-, hn, rfl⟩ := step_accept.1 hs
    by_cases hw : ws = h
    · simp [noteStep, hw, mem_mapSet]
    · have hw' : h ≠ ws := fun e => hw e.symm
      simp [noteStep, hw, hw', mem_mapSet, hb]
  | readOk ws file =>
    obtain ⟨-, hn, rfl⟩ := step_readOk.1 hs
    simpa [noteStep] using hb
  | readErr ws e =>
    obtain ⟨-, hn, rfl⟩ := step_readErr.1 hs
    by_cases hw : ws = h
    · simp [noteStep, hw, mem_mapDelete]
    · have hw' : h ≠ ws := fun e => hw e.symm
      simp [noteStep, hw, hw', mem_mapDelete, hb]
  | handoff ws file order =>
    obtain ⟨-, hn, -, -, -, rfl⟩ := step_handoff.1 hs
    simpa [noteStep] using hb
  | push ws file =>
    obtain ⟨-, hn, -, rfl⟩ := step_push.1 hs
    simpa [noteStep] using hb
  | pop order =>
    obtain ⟨-, -, -, msg, rest, -, rfl⟩ := step_pop.1 hs
    simpa [noteStep] using hb
  | write client ok =>
    obtain ⟨-, -, msg, rest, -, rfl⟩ := step_write.1 hs
    cases ok
    · by_cases hw : client = h
      · simp [noteStep, hw, mem_mapDelete]
      · have hw' : h ≠ client := fun e => hw e.symm
        simp [noteStep, hw, hw', mem_mapDelete, hb]
    · simpa [noteStep] using hb
  | skip client =>
    obtain ⟨-, -, msg, rest, -, rfl⟩ := step_skip.1 hs
    simpa [noteStep] using hb
  | endRange =>
    obtain ⟨-, msg, -, rfl⟩ := step_endRange.1 hs
    simpa [noteStep] using hb
  | added ws =>
    obtain ⟨-, -, rfl⟩ := step_added.1 hs
    simpa [noteStep] using hb
  | deleted ws =>
    obtain ⟨-, -, rfl⟩ := step_deleted.1 hs
    simpa [noteStep] using hb
  | fatal =>
    obtain ⟨-, -, rfl⟩ := step_fatal.1 hs
    simpa [noteStep] using hb

theorem noteStep_run {acts : List Action} {s t : State} {h : Conn} {b : Bool}
    (hs : run acts s = some t) (hb : h ∈ s.clients ↔ b = true) :
    h ∈ t.clients ↔ acts.foldl (noteStep h) b = true := by
  induction acts generalizing s b with
  | nil =>
    simp only [run, Option.some.injEq] at hs
    subst hs
    simpa using hb
  | cons a rest ih =>
    simp only [run, Option.bind_eq_some] at hs
    obtain ⟨s1, hs1, hrest⟩ := hs
    simpa using ih hrest (noteStep_step hs1 hb)

/-- C5 (registry membership invariant). In every state reached from the start of the
process by any sequence of steps, the key list of `clients` has no repetition, and a
handle is in it exactly if it has been added and has not since failed a read or a
write. Hence a handle that is not (or no longer) in that situation is in no iteration
order the loop can start with and is never written to; and setting a key that is
present leaves the map as it is. -/
theorem C5_registry_membership (acts : List Action) (s : State)
    (hrun : run acts init = some s) :
    s.clients.Nodup ∧
    (∀ h, h ∈ s.clients ↔ addedNotFailed h acts = true) ∧
    (∀ h, addedNotFailed h acts = false →
      (∀ ok, step s (.write h ok) = none) ∧
      (∀ ws file order t, step s (.handoff ws file order) = some t → h ∉ order) ∧
      (∀ order t, step s (.pop order) = some t → h ∉ order)) ∧
    (∀ h, h ∈ s.clients → mapSet s.clients h = s.clients) := by
  have hmem : ∀ h, h ∈ s.clients ↔ addedNotFailed h acts = true := fun h =>
    noteStep_run hrun (by simp [init])
  refine ⟨(inv_run inv_init hrun).1, hmem, ?_, ?_⟩
  · intro h hf
    have hout : h ∉ s.clients := by
      rw [hmem h, hf]
      simp
    refine ⟨step_write_absent hout, ?_, ?_⟩
    · intro ws file order t ht hc
      exact hout ((step_handoff.1 ht).2.2.2.2.1.mem_iff.1 hc)
    · intro order t ht hc
      exact hout ((step_pop.1 ht).2.2.1.mem_iff.1 hc)
  · intro h hh
    simp [mapSet, hh]

/-- Witness of C5: after `oneDrops` only client 1 is registered. -/
theorem C5_registry_membership_witness :
    run oneDrops init = some afterOneDrops ∧ afterOneDrops.clients = [1] ∧
    addedNotFailed 1 oneDrops = true ∧ addedNotFailed 2 oneDrops = false ∧
    (∀ h, h ∈ afterOneDrops.clients ↔ addedNotFailed h oneDrops = true) :=
  ⟨rfl, rfl, rfl, rfl, (C5_registry_membership oneDrops afterOneDrops rfl).2.1⟩

/-- C9 (idempotent removal), evaluated on the code. In `loopBusy` the write to client
2 fails and the loop deletes 2 (line 111), which leaves the registry `[1]`; the Reader
of 2, woken by the close of line 110, enters its `delete` of the same handle (line
93). On the content of the map that second removal changes nothing, as deleting an
absent key never does; but the Reader is inside its map write while the loop is
inside its `range`, so the removal is not free of error: the runtime's fatal error is
a possible step, and after it no goroutine takes a step again. -/
theorem C9_second_removal_can_end_the_process :
    (run [.write 2 false] loopBusy).map (fun t => t.clients) = some [1] ∧
    run removedTwice loopBusy = some afterRemovedTwice ∧
    afterRemovedTwice.clients = [1] ∧
    (∀ R h, h ∉ R → mapDelete R h = R) ∧
    (∀ R h, mapDelete (mapDelete R h) h = mapDelete R h) ∧
    afterRemovedTwice.exited = false ∧
    afterRemovedTwice.inside = [2] ∧ afterRemovedTwice.loop = .range hello [] ∧
    ¬ Exclusive afterRemovedTwice ∧
    ∃ t, step afterRemovedTwice .fatal = some t ∧ t.exited = true ∧
      ∀ a, step t a = none := by
  have h1 : ∀ (R : List Conn) (h : Conn), h ∉ R → mapDelete R h = R := by
    intro R h hm
    unfold mapDelete
    rw [List.filter_eq_self]
    intro c hc
    simpa using fun (e : c = h) => hm (e ▸ hc)
  have h2 : ∀ (R : List Conn) (h : Conn), h ∉ mapDelete R h :=
    fun R h hc => (mem_mapDelete.1 hc).2 rfl
  refine ⟨rfl, rfl, rfl, h1, fun R h => h1 _ h (h2 R h), rfl, rfl, rfl, by decide,
    { afterRemovedTwice with exited := true }, ?_, rfl, ?_⟩
  · exact step_fatal.2 ⟨rfl, by decide, rfl⟩
  · intro a
    simp [step]

/-! ## Claim C10: mutual exclusion -/

/-- C10 (mutual exclusion), evaluated on the code. Clients 1 and 2 connect and then
disconnect at the same time: the read of each Reader fails and each enters the
`delete` of line 93. Nothing makes the second wait for the first: entering a map
write is a possible step whenever the Reader is at that statement, whoever else is
inside one. In the state reached two goroutines are inside a registry operation at
once, mutual exclusion does not hold, and the runtime's fatal error is a possible
step, after which no goroutine takes a step again. -/
theorem C10_registry_operations_overlap :
    run bothDrop init = some afterBothDrop ∧
    afterBothDrop.exited = false ∧
    afterBothDrop.readers 1 = some .deleting ∧ afterBothDrop.readers 2 = some .deleting ∧
    afterBothDrop.inside = [1, 2] ∧ inRegistry afterBothDrop = 2 ∧
    ¬ Exclusive afterBothDrop ∧
    (∀ s ws e, (step s (.readErr ws e)).isSome = true ↔
      (s.exited = false ∧ s.readers ws = some .read)) ∧
    (∀ s ws seen, (step s (.accept ws seen)).isSome = true ↔
      (s.exited = false ∧ s.readers ws = none)) ∧
    ∃ t, step afterBothDrop .fatal = some t ∧ t.exited = true ∧ ∀ a, step t a = none := by
  refine ⟨rfl, rfl, rfl, rfl, rfl, rfl, by decide, ?_, ?_,
    { afterBothDrop with exited := true }, ?_, rfl, ?_⟩
  · intro s ws e
    rw [Option.isSome_iff_exists]
    constructor
    · rintro ⟨t, ht⟩
      exact ⟨(step_readErr.1 ht).1, (step_readErr.1 ht).2.1⟩
    · rintro ⟨he, hr⟩
      exact ⟨_, step_readErr.2 ⟨he, hr, rfl⟩⟩
  · intro s ws seen
    rw [Option.isSome_iff_exists]
    constructor
    · rintro ⟨t, ht⟩
      exact ⟨(step_accept.1 ht).1, (step_accept.1 ht).2.1⟩
    · rintro ⟨he, hr⟩
      exact ⟨_, step_accept.2 ⟨he, hr, rfl⟩⟩
  · exact step_fatal.2 ⟨rfl, by decide, rfl⟩
  · intro a
    simp [step]

/-! ## Claims C6 and C7: process exit and the channel -/

/-- C6 (upgrade failure), evaluated on the code: with clients 1, 2 and 3 connected (a
state reached from the start of the process), a request whose upgrade fails is a step that is taken; it logs one line, leaves the
registry as it is and ends the process (`log.Fatal`), after which no goroutine takes
any step: neither the Broadcast Loop nor the Reader of any other client goes on. -/
theorem C6_upgrade_failure_exits :
    run connectThree init = some threeClients ∧ threeClients.clients = [1, 2, 3] ∧
    ∃ t, step threeClients .upgradeErr = some t ∧
      t.logged = threeClients.logged + 1 ∧ t.clients = threeClients.clients ∧
      t.exited = true ∧ ∀ a, step t a = none := by
  refine ⟨rfl, rfl, _, rfl, rfl, rfl, rfl, ?_⟩
  intro a
  simp [step]

theorem broadcast_empty_step {s t : State} {a : Action} (hb : s.broadcast = [])
    (hs : step s a = some t) : t.broadcast = [] := by
  cases a with
  | upgradeErr =>
    obtain ⟨-, rfl⟩ := step_upgradeErr.1 hs
    exact hb
  | accept ws seen =>
    obtain ⟨-, -, rfl⟩ := step_accept.1 hs
    exact hb
  | readOk ws file =>
    obtain ⟨-, -, rfl⟩ := step_readOk.1 hs
    exact hb
  | readErr ws e =>
    obtain ⟨-, -, rfl⟩ := step_readErr.1 hs
    exact hb
  | handoff ws file order =>
    obtain ⟨-, -, -, -, -, rfl⟩ := step_handoff.1 hs
    exact hb
  | push ws file =>
    obtain ⟨-, -, hlt, -⟩ := step_push.1 hs
    simp [broadcastCap] at hlt
  | pop order =>
    obtain ⟨-, -, -, msg, rest, hm, -⟩ := step_pop.1 hs
    simp [hb] at hm
  | write client ok =>
    obtain ⟨-, -, msg, rest, -, rfl⟩ := step_write.1 hs
    cases ok <;> exact hb
  | skip client =>
    obtain ⟨-, -, msg, rest, -, rfl⟩ := step_skip.1 hs
    exact hb
  | endRange =>
    obtain ⟨-, msg, -, rfl⟩ := step_endRange.1 hs
    exact hb
  | added ws =>
    obtain ⟨-, -, rfl⟩ := step_added.1 hs
    exact hb
  | deleted ws =>
    obtain ⟨-, -, rfl⟩ := step_deleted.1 hs
    exact hb
  | fatal =>
    obtain ⟨-, -, rfl⟩ := step_fatal.1 hs
    exact hb

theorem broadcast_empty_run {acts : List Action} {s t : State} (hb : s.broadcast = [])
    (hs : run acts s = some t) : t.broadcast = [] := by
  induction acts generalizing s with
  | nil =>
    simp only [run, Option.some.injEq] at hs
    exact hs ▸ hb
  | cons a rest ih =>
    simp only [run, Option.bind_eq_some] at hs
    obtain ⟨s1, hs1, hrest⟩ := hs
    exact ih (broadcast_empty_step hb hs1) hrest

/-- A Reader leaves its send only by the hand-off of its message to the loop. -/
theorem leave_send {s t : State} {a : Action} {ws : Conn} {file : File}
    (hs : step s a = some t) (hr : s.readers ws = some (.send file))
    (hne : t.readers ws ≠ some (.send file)) :
    ∃ order, a = .handoff ws file order ∧ s.loop = .recv ∧ t.loop = .range file order ∧
      t.readers ws = some .read := by
  cases a with
  | upgradeErr =>
    obtain ⟨-, rfl⟩ := step_upgradeErr.1 hs
    exact absurd hr hne
  | accept c seen =>
    obtain ⟨-, hn, rfl⟩ := step_accept.1 hs
    have hc : ws ≠ c := fun e => by simp [e ▸ hr] at hn
    simp [setPC, hc, hr] at hne
  | readOk c f =>
    obtain ⟨-, hn, rfl⟩ := step_readOk.1 hs
    have hc : ws ≠ c := fun e => by simp [e ▸ hr] at hn
    simp [setPC, hc, hr] at hne
  | readErr c e =>
    obtain ⟨-, hn, rfl⟩ := step_readErr.1 hs
    have hc : ws ≠ c := fun e => by simp [e ▸ hr] at hn
    simp [setPC, hc, hr] at hne
  | handoff c f order =>
    obtain ⟨-, hn, hl, -, -, rfl⟩ := step_handoff.1 hs
    by_cases hc : ws = c
    · subst hc
      have hf : f = file := by simpa [hr] using hn.symm
      subst hf
      exact ⟨order, rfl, hl, rfl, by simp [setPC]⟩
    · simp [setPC, hc, hr] at hne
  | push c f =>
    obtain ⟨-, -, hlt, -⟩ := step_push.1 hs
    simp [broadcastCap] at hlt
  | pop order =>
    obtain ⟨-, -, -, msg, rest, -, rfl⟩ := step_pop.1 hs
    exact absurd hr hne
  | write client ok =>
    obtain ⟨-, -, msg, rest, -, rfl⟩ := step_write.1 hs
    cases ok <;> exact absurd hr hne
  | skip client =>
    obtain ⟨-, -, msg, rest, -, rfl⟩ := step_skip.1 hs
    exact absurd hr hne
  | endRange =>
    obtain ⟨-, msg, -, rfl⟩ := step_endRange.1 hs
    exact absurd hr hne
  | added c =>
    obtain ⟨-, hn, rfl⟩ := step_added.1 hs
    have hc : ws ≠ c := fun e => by simp [e ▸ hr] at hn
    simp [setPC, hc, hr] at hne
  | deleted c =>
    obtain ⟨-, hn, rfl⟩ := step_deleted.1 hs
    have hc : ws ≠ c := fun e => by simp [e ▸ hr] at hn
    simp [setPC, hc, hr] at hne
  | fatal =>
    obtain ⟨-, -, rfl⟩ := step_fatal.1 hs
    exact absurd hr hne

/-- C7 fails as stated: in the state `loopBusy`, reached from the start of the process,
the loop is inside the broadcast of `hello`, no message is waiting in the channel
(n = 0), the Reader of client 1 has decoded `world`, and yet its send cannot complete,
neither into the channel nor to the loop: whatever step the process takes next, that
Reader is still at its send. -/
theorem C7_counterexample :
    run secondWhileBusy init = some loopBusy ∧
    loopBusy.loop = .range hello [2] ∧
    loopBusy.broadcast.length = 0 ∧ loopBusy.readers 1 = some (.send world) ∧
    step loopBusy (.push 1 world) = none ∧
    (∀ order, step loopBusy (.handoff 1 world order) = none) ∧
    (∀ a t, step loopBusy a = some t → t.readers 1 = some (.send world)) := by
  refine ⟨rfl, rfl, rfl, rfl, rfl, fun order => ?_, fun a t hs => ?_⟩
  · cases hs : step loopBusy (.handoff 1 world order) with
    | none => rfl
    | some t =>
      have hl : loopBusy.loop = .recv := (step_handoff.1 hs).2.2.1
      exact absurd hl (by decide)
  · by_contra hne
    have hr : loopBusy.readers 1 = some (.send world) := rfl
    obtain ⟨order, -, hl, -⟩ := leave_send hs hr hne
    exact absurd hl (by decide)

/-- C7 as amended: `broadcast` is unbuffered. From the start of the process no state
holds a message in the channel, and a send into the channel is never a possible step;
a Reader at its send leaves it only in the joint step in which the loop, waiting at
line 104, receives that very message, and the Reader is then back at its read; that
joint step is possible whenever the loop waits at line 104. -/
theorem C7_unbuffered_handoff :
    (∀ acts s, run acts init = some s → s.broadcast = []) ∧
    (∀ s ws file, step s (.push ws file) = none) ∧
    (∀ s a t ws file, step s a = some t → s.readers ws = some (.send file) →
      t.readers ws ≠ some (.send file) →
      ∃ order, a = .handoff ws file order ∧ s.loop = .recv ∧ t.loop = .range file order ∧
        t.readers ws = some .read) ∧
    (∀ s ws file order, s.exited = false → s.readers ws = some (.send file) →
      s.loop = .recv → s.broadcast = [] → order.Perm s.clients →
      ∃ t, step s (.handoff ws file order) = some t ∧ t.readers ws = some .read ∧
        t.loop = .range file order) := by
  refine ⟨fun acts s hs => broadcast_empty_run rfl hs, ?_, ?_, ?_⟩
  · intro s ws file
    cases hs : step s (.push ws file) with
    | none => rfl
    | some t =>
      have := (step_push.1 hs).2.2.1
      simp [broadcastCap] at this
  · intro s a t ws file hs hr hne
    exact leave_send hs hr hne
  · intro s ws file order he hr hl hb hp
    exact ⟨_, step_handoff.2 ⟨he, hr, hl, hb, hp, rfl⟩, by simp [setPC], rfl⟩

/-- Witness of C7 as amended: in `threeClients` the loop waits, and client 1 hands
`hello` over. -/
theorem C7_unbuffered_handoff_witness :
    threeClients.readers 1 = some (.send hello) ∧ threeClients.loop = .recv ∧
    ∃ t, step threeClients (.handoff 1 hello [1, 2, 3]) = some t ∧
      t.readers 1 = some .read ∧ t.loop = .range hello [1, 2, 3] :=
  ⟨rfl, rfl, C7_unbuffered_handoff.2.2.2 threeClients 1 hello [1, 2, 3] rfl rfl rfl rfl
    (by decide)⟩

/-! ## Lemmas: the decoder -/

end Relay
